import Mathlib

/-
Shallow embedding of src/python/mlx/nn/layers/normalization.py
(LayerNorm, RMSNorm, GroupNorm, BatchNorm1d).

Modelling choices:
* Array values are real numbers; mx.rsqrt r is (Real.sqrt r)⁻¹.
* LayerNorm and RMSNorm act independently on each slice along the last
  axis (mx.mean/var/sum with axis=-1 and keepdims=True broadcast back
  over that axis), so they are embedded on one such slice, a vector
  Fin n → ℝ.
* GroupNorm and BatchNorm1d need array shapes (rank check, reshape,
  transpose, broadcasting), so they are embedded on MLXArray: a shape
  together with row-major flat data.  reshape keeps the flat data and
  changes the shape; transpose permutes the index arithmetic;
  elementwise binary operations broadcast right-aligned (a dimension
  of size 1 is repeated), as in mlx/numpy.  mx primitives themselves
  are external to this repository, so they are modelled as total
  functions: shapes that mlx would reject are given a best-effort
  result and no error, since the only error defined in this file is
  BatchNorm1d's rank check.
* mx.mean/mx.var use the default ddof = 0 (population statistics).
-/

namespace MLX

noncomputable section

/-- mx.rsqrt: reciprocal square root. -/
def rsqrt (r : ℝ) : ℝ := (Real.sqrt r)⁻¹

/-- mx.mean(x, axis=-1) on one slice along the last axis. -/
def mean {n : ℕ} (x : Fin n → ℝ) : ℝ := (∑ i, x i) / n

/-- mx.var(x, axis=-1) on one slice along the last axis (ddof = 0). -/
def variance {n : ℕ} (x : Fin n → ℝ) : ℝ := (∑ i, (x i - mean x) ^ 2) / n

/-- LayerNorm.__call__ before the affine scale-and-shift:
x = (x - means) * mx.rsqrt(var + self.eps). -/
def layerNormPre {n : ℕ} (eps : ℝ) (x : Fin n → ℝ) : Fin n → ℝ :=
  fun i => (x i - mean x) * rsqrt (variance x + eps)

/-- LayerNorm.__call__: the affine transform is applied when the
weight (and bias, created together by __init__) is present. -/
def layerNormCall {n : ℕ} (weight bias : Option (Fin n → ℝ)) (eps : ℝ)
    (x : Fin n → ℝ) : Fin n → ℝ :=
  match weight, bias with
  | some w, some b => fun i => w i * layerNormPre eps x i + b i
  | _, _ => layerNormPre eps x

/-- RMSNorm.__call__:
S = 1 / x.shape[-1] ** 0.5;
n = (x * S).square().sum(axis=-1, keepdims=True);
n = mx.rsqrt(n + self.eps);
return self.weight * x * n. -/
def rmsNorm {n : ℕ} (weight : Fin n → ℝ) (eps : ℝ) (x : Fin n → ℝ) :
    Fin n → ℝ :=
  let S : ℝ := 1 / Real.sqrt n
  let s : ℝ := ∑ j, (x j * S) ^ 2
  fun i => weight i * x i * rsqrt (s + eps)

/-- Modelled from the spec: the formula the claim states for RMSNorm,
output = weight * x / (sqrt(mean(x^2, last axis)) + eps), with epsilon
added outside the square root.  Stated only to be compared with
rmsNorm, which embeds the source. -/
def rmsNormClaim {n : ℕ} (weight : Fin n → ℝ) (eps : ℝ) (x : Fin n → ℝ) :
    Fin n → ℝ :=
  fun i => weight i * x i / (Real.sqrt ((∑ j, x j ^ 2) / n) + eps)

/-- An mlx array: a shape and row-major flat data.  Entries of data at
flat indices at or beyond shape.prod are irrelevant padding. -/
@[ext]
structure MLXArray where
  shape : List ℕ
  data : ℕ → ℝ

/-- mx.zeros. -/
def zerosA (s : List ℕ) : MLXArray := ⟨s, fun _ => 0⟩

/-- mx.ones. -/
def onesA (s : List ℕ) : MLXArray := ⟨s, fun _ => 1⟩

/-- Multiplication of an array by a python scalar. -/
def smul (c : ℝ) (x : MLXArray) : MLXArray := ⟨x.shape, fun k => c * x.data k⟩

/-- Addition of a python scalar to an array. -/
def addScalar (x : MLXArray) (c : ℝ) : MLXArray := ⟨x.shape, fun k => x.data k + c⟩

/-- mx.rsqrt applied elementwise. -/
def rsqrtA (x : MLXArray) : MLXArray := ⟨x.shape, fun k => rsqrt (x.data k)⟩

/-- Broadcast shape of two reversed shapes (right-aligned rule:
matching dimensions, a dimension of size 1 is repeated; max gives a
total best-effort answer on shapes mlx would reject). -/
def bshapeRev : List ℕ → List ℕ → List ℕ
  | [], t => t
  | s, [] => s
  | a :: s, b :: t => max a b :: bshapeRev s t

/-- Flat index into an operand of a broadcast operation.  Arguments:
the reversed output shape, the reversed operand shape, the flat index
into the output.  Along each axis the operand coordinate is the output
coordinate reduced modulo the operand dimension (0 on a broadcast
dimension of size 1). -/
def bidxRev : List ℕ → List ℕ → ℕ → ℕ
  | _, [], _ => 0
  | [], _, _ => 0
  | a :: s, b :: t, k => bidxRev s t (k / a) * b + k % a % b

/-- Elementwise binary array operation with broadcasting. -/
def bop (f : ℝ → ℝ → ℝ) (x y : MLXArray) : MLXArray :=
  let sRev := bshapeRev x.shape.reverse y.shape.reverse
  ⟨sRev.reverse, fun k =>
    f (x.data (bidxRev sRev x.shape.reverse k))
      (y.data (bidxRev sRev y.shape.reverse k))⟩

/-- Mean of column j of an (n, f)-shaped array (axis 0). -/
def colMean (x : MLXArray) (n f j : ℕ) : ℝ :=
  (∑ i ∈ Finset.range n, x.data (i * f + j)) / n

/-- Variance (ddof = 0) of column j of an (n, f)-shaped array (axis 0). -/
def colVar (x : MLXArray) (n f j : ℕ) : ℝ :=
  (∑ i ∈ Finset.range n, (x.data (i * f + j) - colMean x n f j) ^ 2) / n

/-- mx.mean(x, axis=0, keepdims=True) on a rank-2 array, as used by
BatchNorm1d._calc_stats (the call site guarantees rank 2). -/
def meanAxis0k (x : MLXArray) : MLXArray :=
  match x.shape with
  | [n, f] => ⟨[1, f], fun k => colMean x n f k⟩
  | _ => x

/-- mx.var(x, axis=0, keepdims=True) on a rank-2 array, as used by
BatchNorm1d._calc_stats. -/
def varAxis0k (x : MLXArray) : MLXArray :=
  match x.shape with
  | [n, f] => ⟨[1, f], fun k => colVar x n f k⟩
  | _ => x

/-- Mean over the middle axis of an (a, m, c)-shaped array, at outer
index b and inner index g. -/
def sliceMean (x : MLXArray) (m c b g : ℕ) : ℝ :=
  (∑ s ∈ Finset.range m, x.data ((b * m + s) * c + g)) / m

/-- Variance (ddof = 0) over the middle axis of an (a, m, c)-shaped
array, at outer index b and inner index g. -/
def sliceVar (x : MLXArray) (m c b g : ℕ) : ℝ :=
  (∑ s ∈ Finset.range m, (x.data ((b * m + s) * c + g) - sliceMean x m c b g) ^ 2) / m

/-- mx.mean(x, axis=1, keepdims=True) on a rank-3 array, as used by
GroupNorm (both grouping paths normalize a rank-3 reshape). -/
def meanAxis1k (x : MLXArray) : MLXArray :=
  match x.shape with
  | [a, m, c] => ⟨[a, 1, c], fun k => sliceMean x m c (k / c) (k % c)⟩
  | _ => x

/-- mx.var(x, axis=1, keepdims=True) on a rank-3 array, as used by
GroupNorm. -/
def varAxis1k (x : MLXArray) : MLXArray :=
  match x.shape with
  | [a, m, c] => ⟨[a, 1, c], fun k => sliceVar x m c (k / c) (k % c)⟩
  | _ => x

/-- x.transpose(0, 1, 3, 2) on a rank-4 array: shape (a, b, c, d)
becomes (a, b, d, c); element (i, j, l, m) of the result is element
(i, j, m, l) of the argument. -/
def transpose0132 (x : MLXArray) : MLXArray :=
  match x.shape with
  | [a, b, c, d] =>
    ⟨[a, b, d, c], fun k =>
      x.data (((k / (c * d * b) * b + k / (c * d) % b) * c + k % c) * d + k / c % d)⟩
  | _ => x

/-- GroupNorm._group_norm:
batch, *rest, dims = x.shape;
x = x.reshape(batch, -1, num_groups);
means/var over axis 1 with keepdims;
x = (x - means) * mx.rsqrt(var + eps);
x = x.reshape(batch, *rest, dims).
reshape keeps the row-major flat data; the -1 dimension is
size / (batch * num_groups). -/
def groupNormCore (numGroups : ℕ) (eps : ℝ) (x : MLXArray) : MLXArray :=
  let batch := x.shape.headD 0
  let mid := x.shape.prod / (batch * numGroups)
  let y : MLXArray := ⟨[batch, mid, numGroups], x.data⟩
  let means := meanAxis1k y
  let v := varAxis1k y
  let z := bop (· * ·) (bop (· - ·) y means) (rsqrtA (addScalar v eps))
  ⟨x.shape, z.data⟩

/-- GroupNorm._pytorch_compatible_group_norm:
batch, *rest, dims = x.shape;
x = x.reshape(batch, -1, num_groups, dims // num_groups);
x = x.transpose(0, 1, 3, 2).reshape(batch, -1, num_groups);
means/var over axis 1 with keepdims;
x = (x - means) * mx.rsqrt(var + eps);
x = x.reshape(batch, -1, dims // num_groups, num_groups);
x = x.transpose(0, 1, 3, 2).reshape(batch, *rest, dims). -/
def pytorchGroupNormCore (numGroups : ℕ) (eps : ℝ) (x : MLXArray) : MLXArray :=
  let batch := x.shape.headD 0
  let dims := x.shape.getLastD 0
  let gsize := dims / numGroups
  let r1 : MLXArray := ⟨[batch, x.shape.prod / (batch * numGroups * gsize), numGroups, gsize], x.data⟩
  let t1 := transpose0132 r1
  let r2 : MLXArray := ⟨[batch, x.shape.prod / (batch * numGroups), numGroups], t1.data⟩
  let means := meanAxis1k r2
  let v := varAxis1k r2
  let z := bop (· * ·) (bop (· - ·) r2 means) (rsqrtA (addScalar v eps))
  let r3 : MLXArray := ⟨[batch, x.shape.prod / (batch * gsize * numGroups), gsize, numGroups], z.data⟩
  let t2 := transpose0132 r3
  ⟨x.shape, t2.data⟩

/-- The GroupNorm module: group count, feature count, epsilon,
optional learned affine parameters, compatibility-mode flag. -/
structure GroupNorm where
  num_groups : ℕ
  dims : ℕ
  eps : ℝ
  weight : Option MLXArray
  bias : Option MLXArray
  pytorch_compatible : Bool

/-- GroupNorm.__init__. -/
def GroupNorm.init (numGroups dims : ℕ) (eps : ℝ)
    (affine pytorchCompatible : Bool) : GroupNorm :=
  { num_groups := numGroups
    dims := dims
    eps := eps
    weight := if affine then some (onesA [dims]) else none
    bias := if affine then some (zerosA [dims]) else none
    pytorch_compatible := pytorchCompatible }

/-- GroupNorm.__call__: pick the grouping path by the flag, then apply
the affine transform when the weight is present. -/
def GroupNorm.call (g : GroupNorm) (x : MLXArray) : MLXArray :=
  let y := if g.pytorch_compatible
    then pytorchGroupNormCore g.num_groups g.eps x
    else groupNormCore g.num_groups g.eps x
  match g.weight, g.bias with
  | some w, some b => bop (· + ·) (bop (· * ·) w y) b
  | _, _ => y

/-- The BatchNorm1d module state: the learned parameters (present when
affine), the running statistics, the hyperparameters and the training
flag inherited from the Module base class. -/
structure BatchNorm1d where
  num_features : ℕ
  eps : ℝ
  momentum : ℝ
  weight : Option MLXArray
  bias : Option MLXArray
  running_mean : MLXArray
  running_var : MLXArray
  training : Bool

/-- BatchNorm1d.__init__ (a new Module starts in training mode). -/
def BatchNorm1d.init (numFeatures : ℕ) (eps momentum : ℝ) (affine : Bool) :
    BatchNorm1d :=
  { num_features := numFeatures
    eps := eps
    momentum := momentum
    weight := if affine then some (onesA [numFeatures]) else none
    bias := if affine then some (zerosA [numFeatures]) else none
    running_mean := zerosA [numFeatures]
    running_var := onesA [numFeatures]
    training := true }

/-- BatchNorm1d._calc_stats: batch mean/var over axis 0 (keepdims),
EMA update of the running statistics with weight momentum on the old
value and (1 - momentum) on the batch statistic; returns the batch
statistics together with the updated module. -/
def BatchNorm1d.calcStats (m : BatchNorm1d) (x : MLXArray) :
    BatchNorm1d × MLXArray × MLXArray :=
  let means := meanAxis0k x
  let v := varAxis0k x
  ({ m with
      running_mean :=
        bop (· + ·) (smul m.momentum m.running_mean) (smul (1 - m.momentum) means)
      running_var :=
        bop (· + ·) (smul m.momentum m.running_var) (smul (1 - m.momentum) v) },
    means, v)

/-- The body of BatchNorm1d.__call__ after the rank check:
means, var = self.running_mean, self.running_var;
if self.training: means, var = self._calc_stats(x);
x = (x - means) * mx.rsqrt(var + self.eps);
return self.weight * x + self.bias when the weight is present. -/
def BatchNorm1d.forward (m : BatchNorm1d) (x : MLXArray) :
    BatchNorm1d × MLXArray :=
  let s := if m.training then m.calcStats x else (m, m.running_mean, m.running_var)
  let y := bop (· * ·) (bop (· - ·) x s.2.1) (rsqrtA (addScalar s.2.2 m.eps))
  match s.1.weight, s.1.bias with
  | some w, some b => (s.1, bop (· + ·) (bop (· * ·) w y) b)
  | _, _ => (s.1, y)

/-- BatchNorm1d.__call__: the rank check raises before any state
access, so on failure the module is returned unchanged alongside the
error; otherwise the forward body runs. -/
def BatchNorm1d.call (m : BatchNorm1d) (x : MLXArray) :
    BatchNorm1d × Except String MLXArray :=
  if x.shape.length ≠ 2 then
    (m, Except.error "BatchNorm1d only supports 2D inputs")
  else ((m.forward x).1, Except.ok (m.forward x).2)

/-- A concrete rank-1 array of one constant entry. -/
def arr1 (c : ℝ) : MLXArray := ⟨[1], fun _ => c⟩

/-- A concrete 1 x 1 array of one constant entry. -/
def arr11 (c : ℝ) : MLXArray := ⟨[1, 1], fun _ => c⟩

/-- A concrete 1 x 1 x 1 array of one constant entry. -/
def arr111 (c : ℝ) : MLXArray := ⟨[1, 1, 1], fun _ => c⟩

/-- A concrete BatchNorm1d module in evaluation mode with affine
parameters. -/
def bnEval : BatchNorm1d :=
  { num_features := 1
    eps := 1
    momentum := 1 / 10
    weight := some (arr1 2)
    bias := some (arr1 3)
    running_mean := arr1 4
    running_var := arr1 9
    training := false }

/-- A concrete BatchNorm1d module in training mode without affine
parameters, with the default momentum 0.1. -/
def bnTrainA : BatchNorm1d :=
  { num_features := 1
    eps := 1
    momentum := 1 / 10
    weight := none
    bias := none
    running_mean := arr1 4
    running_var := arr1 9
    training := true }

/-- A concrete BatchNorm1d module in training mode with affine
parameters. -/
def bnTrainB : BatchNorm1d := { bnEval with training := true }

/-- A concrete GroupNorm module with one group and one feature. -/
def gn0 : GroupNorm :=
  { num_groups := 1
    dims := 1
    eps := 1
    weight := none
    bias := none
    pytorch_compatible := false }

/-!  Helper lemmas. -/

lemma sum_sub_mean {n : ℕ} (hn : 0 < n) (x : Fin n → ℝ) :
    ∑ i, (x i - mean x) = 0 := by
  have hn0 : (n : ℝ) ≠ 0 := Nat.cast_ne_zero.mpr hn.ne'
  rw [Finset.sum_sub_distrib, Finset.sum_const, Finset.card_univ, Fintype.card_fin,
    nsmul_eq_mul, mean]
  field_simp

lemma mean_layerNormPre {n : ℕ} (hn : 0 < n) (eps : ℝ) (x : Fin n → ℝ) :
    mean (layerNormPre eps x) = 0 := by
  unfold mean layerNormPre
  rw [← Finset.sum_mul, sum_sub_mean hn]
  simp

lemma variance_nonneg {n : ℕ} (x : Fin n → ℝ) : 0 ≤ variance x := by
  unfold variance
  positivity

lemma rsqrt_sq {r : ℝ} (hr : 0 ≤ r) : rsqrt r ^ 2 = r⁻¹ := by
  unfold rsqrt
  rw [inv_pow, Real.sq_sqrt hr]

lemma variance_layerNormPre {n : ℕ} (hn : 0 < n) {eps : ℝ} (heps : 0 ≤ eps)
    (x : Fin n → ℝ) :
    variance (layerNormPre eps x) = variance x / (variance x + eps) := by
  have hv : (0:ℝ) ≤ variance x + eps := add_nonneg (variance_nonneg x) heps
  have h0 := mean_layerNormPre hn eps x
  have key : ∀ i, layerNormPre eps x i ^ 2 = (x i - mean x) ^ 2 * (variance x + eps)⁻¹ := by
    intro i
    unfold layerNormPre
    rw [mul_pow, rsqrt_sq hv]
  calc variance (layerNormPre eps x)
      = (∑ i, layerNormPre eps x i ^ 2) / n := by
        unfold variance
        rw [h0]
        simp only [sub_zero]
    _ = (∑ i, (x i - mean x) ^ 2 * (variance x + eps)⁻¹) / n := by
        simp_rw [key]
    _ = (∑ i, (x i - mean x) ^ 2) / n * (variance x + eps)⁻¹ := by
        rw [← Finset.sum_mul]
        ring
    _ = variance x / (variance x + eps) := by
        unfold variance
        rw [div_eq_mul_inv, div_eq_mul_inv]

lemma rmsNorm_eq {n : ℕ} (hn : 0 < n) (weight : Fin n → ℝ) (eps : ℝ)
    (x : Fin n → ℝ) (i : Fin n) :
    rmsNorm weight eps x i = weight i * x i * rsqrt ((∑ j, x j ^ 2) / n + eps) := by
  have hS : ((1 : ℝ) / Real.sqrt n) ^ 2 = 1 / n := by
    rw [div_pow, one_pow, Real.sq_sqrt (Nat.cast_nonneg n)]
  simp only [rmsNorm]
  congr 2
  simp_rw [mul_pow, hS]
  rw [← Finset.sum_mul, mul_one_div]

/-!  Claim theorems: C1 and C5. -/

/-- C1 (amended): for a nonempty feature axis and eps ≥ 0, the
pre-affine LayerNorm output has exactly zero mean along the feature
axis, while its variance along that axis equals
var(x) / (var(x) + eps) — it is not 1 in general, only in the limit
eps → 0. -/
theorem layerNormPre_mean_variance {n : ℕ} (hn : 0 < n) {eps : ℝ}
    (heps : 0 ≤ eps) (x : Fin n → ℝ) :
    mean (layerNormPre eps x) = 0 ∧
      variance (layerNormPre eps x) = variance x / (variance x + eps) :=
  ⟨mean_layerNormPre hn eps x, variance_layerNormPre hn heps x⟩

/-- C1 (counterexample): with eps = 1 and input (0, 2) — whose variance
is 1 — the pre-affine LayerNorm output has variance 1/2, not unit
variance, refuting the claim as stated. -/
theorem layerNormPre_unit_variance_cex :
    variance (layerNormPre (1:ℝ) ![(0:ℝ), 2]) ≠ 1 := by
  have h2 : variance ![(0:ℝ), 2] = 1 := by
    simp [variance, mean, Fin.sum_univ_two]
    norm_num
  rw [variance_layerNormPre (by norm_num) (by norm_num) ![(0:ℝ), 2], h2]
  norm_num

/-- C1 (witness): the amended statement at the concrete input (0, 2)
with eps = 1. -/
theorem layerNormPre_mean_variance_witness :
    mean (layerNormPre (1:ℝ) ![(0:ℝ), 2]) = 0 ∧
      variance (layerNormPre (1:ℝ) ![(0:ℝ), 2]) =
        variance ![(0:ℝ), 2] / (variance ![(0:ℝ), 2] + 1) :=
  layerNormPre_mean_variance (by norm_num) (by norm_num) ![(0:ℝ), 2]

/-- C5 (amended): for a nonempty feature axis, the RMSNorm output is
the learned weight times the input times rsqrt(mean(x^2) + eps): the
epsilon is added inside the square root, to the mean square, not to
the root-mean-square. -/
theorem rmsNorm_formula {n : ℕ} (hn : 0 < n) (weight : Fin n → ℝ) (eps : ℝ)
    (x : Fin n → ℝ) (i : Fin n) :
    rmsNorm weight eps x i = weight i * x i * rsqrt ((∑ j, x j ^ 2) / n + eps) :=
  rmsNorm_eq hn weight eps x i

/-- C5 (counterexample): with one feature, weight 1, input 1 and
eps = 1 the code returns 1/sqrt(2) while the claimed formula
weight * x / (sqrt(mean(x^2)) + eps) gives 1/2; they differ. -/
theorem rmsNorm_claim_cex :
    rmsNorm ![(1:ℝ)] 1 ![(1:ℝ)] 0 ≠ rmsNormClaim ![(1:ℝ)] 1 ![(1:ℝ)] 0 := by
  have hL : rmsNorm ![(1:ℝ)] 1 ![(1:ℝ)] 0 = rsqrt 2 := by
    rw [rmsNorm_eq Nat.one_pos]
    simp [Fin.sum_univ_one]
    norm_num
  have hR : rmsNormClaim ![(1:ℝ)] 1 ![(1:ℝ)] 0 = 1 / 2 := by
    simp [rmsNormClaim, Fin.sum_univ_one]
    norm_num
  rw [hL, hR]
  intro h
  have hs2 : Real.sqrt 2 = 2 := by
    have h2 : (Real.sqrt 2)⁻¹ = ((2:ℝ))⁻¹ := by
      unfold rsqrt at h
      rw [h]
      norm_num
    have h3 := congrArg Inv.inv h2
    simpa using h3
  have h4 := Real.sq_sqrt (show (0:ℝ) ≤ 2 by norm_num)
  rw [hs2] at h4
  norm_num at h4

/-- C5 (witness): the amended statement at a concrete input. -/
theorem rmsNorm_formula_witness :
    rmsNorm ![(2:ℝ)] 5 ![(3:ℝ)] 0 =
      ![(2:ℝ)] 0 * ![(3:ℝ)] 0 * rsqrt ((∑ j, ![(3:ℝ)] j ^ 2) / ((1:ℕ):ℝ) + 5) :=
  rmsNorm_formula Nat.one_pos ![(2:ℝ)] 5 ![(3:ℝ)] 0

/-!  Broadcasting index arithmetic for the shapes BatchNorm1d uses. -/

lemma mod_mod (a n : ℕ) : a % n % n = a % n :=
  Nat.mod_mod_of_dvd a dvd_rfl

lemma bop_2d_1d (f : ℝ → ℝ → ℝ) (a b : MLXArray) (N F : ℕ)
    (ha : a.shape = [N, F]) (hb : b.shape = [F]) :
    bop f a b =
      ⟨[N, F], fun k => f (a.data (k / F % N * F + k % F)) (b.data (k % F))⟩ := by
  unfold bop
  rw [ha, hb]
  apply MLXArray.ext
  · simp [bshapeRev]
  · funext k
    simp [bshapeRev, bidxRev, mod_mod]

lemma bop_1d_2d (f : ℝ → ℝ → ℝ) (a b : MLXArray) (N F : ℕ)
    (ha : a.shape = [F]) (hb : b.shape = [N, F]) :
    bop f a b =
      ⟨[N, F], fun k => f (a.data (k % F)) (b.data (k / F % N * F + k % F))⟩ := by
  unfold bop
  rw [ha, hb]
  apply MLXArray.ext
  · simp [bshapeRev]
  · funext k
    simp [bshapeRev, bidxRev, mod_mod]

lemma bop_2d_r1 (f : ℝ → ℝ → ℝ) (a b : MLXArray) (N F : ℕ) (hN : 0 < N)
    (ha : a.shape = [N, F]) (hb : b.shape = [1, F]) :
    bop f a b =
      ⟨[N, F], fun k => f (a.data (k / F % N * F + k % F)) (b.data (k % F))⟩ := by
  unfold bop
  rw [ha, hb]
  apply MLXArray.ext
  · simp [bshapeRev, Nat.max_eq_left hN]
  · funext k
    simp [bshapeRev, bidxRev, mod_mod, Nat.mod_one, Nat.max_eq_left hN]

lemma bop_1d_r1 (f : ℝ → ℝ → ℝ) (a b : MLXArray) (F : ℕ)
    (ha : a.shape = [F]) (hb : b.shape = [1, F]) :
    bop f a b = ⟨[1, F], fun k => f (a.data (k % F)) (b.data (k % F))⟩ := by
  unfold bop
  rw [ha, hb]
  apply MLXArray.ext
  · simp [bshapeRev]
  · funext k
    simp [bshapeRev, bidxRev, mod_mod, Nat.mod_one]

lemma meanAxis0k_eq {N F : ℕ} (x : MLXArray) (hx : x.shape = [N, F]) :
    meanAxis0k x = ⟨[1, F], fun k => colMean x N F k⟩ := by
  obtain ⟨s, d⟩ := x
  obtain rfl : s = [N, F] := hx
  rfl

lemma varAxis0k_eq {N F : ℕ} (x : MLXArray) (hx : x.shape = [N, F]) :
    varAxis0k x = ⟨[1, F], fun k => colVar x N F k⟩ := by
  obtain ⟨s, d⟩ := x
  obtain rfl : s = [N, F] := hx
  rfl

/-!  BatchNorm1d helper lemmas. -/

lemma bn_calcStats_weight (m : BatchNorm1d) (x : MLXArray) :
    (m.calcStats x).1.weight = m.weight := by
  simp [BatchNorm1d.calcStats]

lemma bn_calcStats_bias (m : BatchNorm1d) (x : MLXArray) :
    (m.calcStats x).1.bias = m.bias := by
  simp [BatchNorm1d.calcStats]

lemma bn_forward_fst (m : BatchNorm1d) (x : MLXArray) (htr : m.training = true) :
    (m.forward x).1 = (m.calcStats x).1 := by
  simp only [BatchNorm1d.forward, htr, if_true]
  rcases h1 : (m.calcStats x).1.weight with _ | w <;>
    rcases h2 : (m.calcStats x).1.bias with _ | b <;>
    simp [h1, h2]

lemma bn_call_ok (m : BatchNorm1d) (x : MLXArray) (h2 : x.shape.length = 2) :
    m.call x = ((m.forward x).1, Except.ok (m.forward x).2) := by
  simp [BatchNorm1d.call, h2]

lemma bn_calcStats_stats (m : BatchNorm1d) (x : MLXArray) (N F j : ℕ)
    (hx : x.shape = [N, F]) (hrm : m.running_mean.shape = [F])
    (hrv : m.running_var.shape = [F]) (hj : j < F) :
    (m.calcStats x).1.running_mean.data j =
        m.momentum * m.running_mean.data j + (1 - m.momentum) * colMean x N F j ∧
      (m.calcStats x).1.running_var.data j =
        m.momentum * m.running_var.data j + (1 - m.momentum) * colVar x N F j := by
  have hj2 : j % F = j := Nat.mod_eq_of_lt hj
  have hm := meanAxis0k_eq x hx
  have hv := varAxis0k_eq x hx
  have h1 := bop_1d_r1 (· + ·) (smul m.momentum m.running_mean)
      (smul (1 - m.momentum) (meanAxis0k x)) F
      (by simp [smul, hrm]) (by rw [hm]; simp [smul])
  have h2 := bop_1d_r1 (· + ·) (smul m.momentum m.running_var)
      (smul (1 - m.momentum) (varAxis0k x)) F
      (by simp [smul, hrv]) (by rw [hv]; simp [smul])
  constructor
  · simp only [BatchNorm1d.calcStats]
    rw [h1]
    simp [smul, hj2, hm, colMean]
  · simp only [BatchNorm1d.calcStats]
    rw [h2]
    simp [smul, hj2, hv, colVar]

lemma bn_forward_fst_eval (m : BatchNorm1d) (x : MLXArray)
    (htr : m.training = false) : (m.forward x).1 = m := by
  simp only [BatchNorm1d.forward, htr, Bool.false_eq_true, if_false]
  rcases h1 : m.weight with _ | w <;> rcases h2 : m.bias with _ | b <;> simp [h1, h2]

lemma bn_forward_eval_data (m : BatchNorm1d) (x : MLXArray) (N F i j : ℕ)
    (htr : m.training = false) (hx : x.shape = [N, F])
    (hrm : m.running_mean.shape = [F]) (hrv : m.running_var.shape = [F])
    (hwsh : ∀ w, m.weight = some w → w.shape = [F])
    (hbsh : ∀ b, m.bias = some b → b.shape = [F])
    (hi : i < N) (hj : j < F) :
    (m.forward x).2.data (i * F + j) =
      match m.weight, m.bias with
      | some w, some b =>
          w.data j * ((x.data (i * F + j) - m.running_mean.data j) *
            rsqrt (m.running_var.data j + m.eps)) + b.data j
      | _, _ =>
          (x.data (i * F + j) - m.running_mean.data j) *
            rsqrt (m.running_var.data j + m.eps) := by
  have hF : 0 < F := lt_of_le_of_lt (Nat.zero_le j) hj
  have e1 : (i * F + j) % F = j := by
    rw [mul_comm i F, Nat.mul_add_mod, Nat.mod_eq_of_lt hj]
  have e2 : (i * F + j) / F = i := by
    rw [mul_comm i F, Nat.mul_add_div hF, Nat.div_eq_of_lt hj, add_zero]
  have e3 : i % N = i := Nat.mod_eq_of_lt hi
  have hA := bop_2d_1d (· - ·) x m.running_mean N F hx hrm
  have hRs : (rsqrtA (addScalar m.running_var m.eps)).shape = [F] := by
    simp [rsqrtA, addScalar, hrv]
  have hY := bop_2d_1d (· * ·) (bop (· - ·) x m.running_mean)
      (rsqrtA (addScalar m.running_var m.eps)) N F (by rw [hA]) hRs
  simp only [BatchNorm1d.forward, htr, Bool.false_eq_true, if_false]
  rcases hw2 : m.weight with _ | w
  · rcases hb2 : m.bias with _ | b <;>
      simp only [hw2, hb2] <;>
      · rw [hY]
        dsimp only
        rw [e1, e2, e3]
        rw [hA]
        dsimp only
        rw [e1, e2, e3]
        simp [rsqrtA, addScalar]
  · rcases hb2 : m.bias with _ | b
    · simp only [hw2, hb2]
      rw [hY]
      dsimp only
      rw [e1, e2, e3]
      rw [hA]
      dsimp only
      rw [e1, e2, e3]
      simp [rsqrtA, addScalar]
    · have hW := bop_1d_2d (· * ·) w
          (bop (· * ·) (bop (· - ·) x m.running_mean) (rsqrtA (addScalar m.running_var m.eps)))
          N F (hwsh w hw2) (by rw [hY])
      have hO := bop_2d_1d (· + ·)
          (bop (· * ·) w
            (bop (· * ·) (bop (· - ·) x m.running_mean) (rsqrtA (addScalar m.running_var m.eps))))
          b N F (by rw [hW]) (hbsh b hb2)
      simp only [hw2, hb2]
      rw [hO]
      dsimp only
      rw [e1, e2, e3]
      rw [hW]
      dsimp only
      rw [e1, e2, e3]
      rw [hY]
      dsimp only
      rw [e1, e2, e3]
      rw [hA]
      dsimp only
      rw [e1, e2, e3]
      simp [rsqrtA, addScalar]

lemma bn_calcStats_snd_mean (m : BatchNorm1d) (x : MLXArray) :
    (m.calcStats x).2.1 = meanAxis0k x := by
  simp [BatchNorm1d.calcStats]

lemma bn_calcStats_snd_var (m : BatchNorm1d) (x : MLXArray) :
    (m.calcStats x).2.2 = varAxis0k x := by
  simp [BatchNorm1d.calcStats]

lemma bn_forward_train_data (m : BatchNorm1d) (x : MLXArray) (N F i j : ℕ)
    (htr : m.training = true) (hx : x.shape = [N, F])
    (hwsh : ∀ w, m.weight = some w → w.shape = [F])
    (hbsh : ∀ b, m.bias = some b → b.shape = [F])
    (hi : i < N) (hj : j < F) :
    (m.forward x).2.data (i * F + j) =
      match m.weight, m.bias with
      | some w, some b =>
          w.data j * ((x.data (i * F + j) - colMean x N F j) *
            rsqrt (colVar x N F j + m.eps)) + b.data j
      | _, _ =>
          (x.data (i * F + j) - colMean x N F j) * rsqrt (colVar x N F j + m.eps) := by
  have hN : 0 < N := lt_of_le_of_lt (Nat.zero_le i) hi
  have hF : 0 < F := lt_of_le_of_lt (Nat.zero_le j) hj
  have e1 : (i * F + j) % F = j := by
    rw [mul_comm i F, Nat.mul_add_mod, Nat.mod_eq_of_lt hj]
  have e2 : (i * F + j) / F = i := by
    rw [mul_comm i F, Nat.mul_add_div hF, Nat.div_eq_of_lt hj, add_zero]
  have e3 : i % N = i := Nat.mod_eq_of_lt hi
  have hm := meanAxis0k_eq x hx
  have hv := varAxis0k_eq x hx
  have hA := bop_2d_r1 (· - ·) x (meanAxis0k x) N F hN hx (by rw [hm])
  have hRs : (rsqrtA (addScalar (varAxis0k x) m.eps)).shape = [1, F] := by
    rw [hv]
    simp [rsqrtA, addScalar]
  have hY := bop_2d_r1 (· * ·) (bop (· - ·) x (meanAxis0k x))
      (rsqrtA (addScalar (varAxis0k x) m.eps)) N F hN (by rw [hA]) hRs
  simp only [BatchNorm1d.forward, htr, if_true, bn_calcStats_weight, bn_calcStats_bias,
    bn_calcStats_snd_mean, bn_calcStats_snd_var]
  rcases hw2 : m.weight with _ | w
  · rcases hb2 : m.bias with _ | b <;>
      simp only [hw2, hb2] <;>
      · rw [hY]
        dsimp only
        rw [e1, e2, e3]
        rw [hA]
        dsimp only
        rw [e1, e2, e3]
        rw [hm, hv]
        simp [rsqrtA, addScalar, e1]
  · rcases hb2 : m.bias with _ | b
    · simp only [hw2, hb2]
      rw [hY]
      dsimp only
      rw [e1, e2, e3]
      rw [hA]
      dsimp only
      rw [e1, e2, e3]
      rw [hm, hv]
      simp [rsqrtA, addScalar, e1]
    · have hW := bop_1d_2d (· * ·) w
          (bop (· * ·) (bop (· - ·) x (meanAxis0k x)) (rsqrtA (addScalar (varAxis0k x) m.eps)))
          N F (hwsh w hw2) (by rw [hY])
      have hO := bop_2d_1d (· + ·)
          (bop (· * ·) w
            (bop (· * ·) (bop (· - ·) x (meanAxis0k x)) (rsqrtA (addScalar (varAxis0k x) m.eps))))
          b N F (by rw [hW]) (hbsh b hb2)
      simp only [hw2, hb2]
      rw [hO]
      dsimp only
      rw [e1, e2, e3]
      rw [hW]
      dsimp only
      rw [e1, e2, e3]
      rw [hY]
      dsimp only
      rw [e1, e2, e3]
      rw [hA]
      dsimp only
      rw [e1, e2, e3]
      rw [hm, hv]
      simp [rsqrtA, addScalar, e1]

/-!  Claim theorems: C2, C3, C8, C9, C4, C10, C7. -/

/-- C2: in evaluation mode, on a 2-D input, calling BatchNorm1d leaves
the whole module state (in particular running_mean and running_var)
unchanged, and each output entry is
(x - running_mean) * rsqrt(running_var + eps), normalized with the
stored running statistics, with the affine transform
weight * _ + bias applied exactly when the learned parameters are
present and the bare normalized value returned otherwise. -/
theorem bn_eval_call (m : BatchNorm1d) (x : MLXArray) (N F i j : ℕ)
    (htr : m.training = false) (hx : x.shape = [N, F])
    (hrm : m.running_mean.shape = [F]) (hrv : m.running_var.shape = [F])
    (hwsh : ∀ w, m.weight = some w → w.shape = [F])
    (hbsh : ∀ b, m.bias = some b → b.shape = [F])
    (hi : i < N) (hj : j < F) :
    (m.call x).1 = m ∧
      (m.call x).2 = Except.ok ((m.forward x).2) ∧
      (m.forward x).2.data (i * F + j) =
        match m.weight, m.bias with
        | some w, some b =>
            w.data j * ((x.data (i * F + j) - m.running_mean.data j) *
              rsqrt (m.running_var.data j + m.eps)) + b.data j
        | _, _ =>
            (x.data (i * F + j) - m.running_mean.data j) *
              rsqrt (m.running_var.data j + m.eps) := by
  have hlen : x.shape.length = 2 := by rw [hx]; rfl
  rw [bn_call_ok m x hlen]
  exact ⟨bn_forward_fst_eval m x htr, rfl,
    bn_forward_eval_data m x N F i j htr hx hrm hrv hwsh hbsh hi hj⟩

/-- C2 (witness): the statement at a concrete evaluation-mode module
with affine parameters and a 1 x 1 input. -/
theorem bn_eval_call_witness :
    (bnEval.call (arr11 5)).1 = bnEval ∧
      (bnEval.call (arr11 5)).2 = Except.ok ((bnEval.forward (arr11 5)).2) ∧
      (bnEval.forward (arr11 5)).2.data (0 * 1 + 0) =
        (arr1 2).data 0 * (((arr11 5).data (0 * 1 + 0) - bnEval.running_mean.data 0) *
          rsqrt (bnEval.running_var.data 0 + bnEval.eps)) + (arr1 3).data 0 :=
  bn_eval_call bnEval (arr11 5) 1 1 0 0 rfl rfl rfl rfl
    (fun w hw => by injection hw with h; subst h; rfl)
    (fun b hb => by injection hb with h; subst h; rfl)
    (by decide) (by decide)

/-- C3: in training mode, on a 2-D input, each running statistic is
updated to the convex combination weighted by momentum on the old
value and (1 - momentum) on the per-feature batch statistic. -/
theorem bn_train_ema (m : BatchNorm1d) (x : MLXArray) (N F j : ℕ)
    (htr : m.training = true) (hx : x.shape = [N, F])
    (hrm : m.running_mean.shape = [F]) (hrv : m.running_var.shape = [F])
    (hj : j < F) :
    (m.call x).1.running_mean.data j =
        m.momentum * m.running_mean.data j + (1 - m.momentum) * colMean x N F j ∧
      (m.call x).1.running_var.data j =
        m.momentum * m.running_var.data j + (1 - m.momentum) * colVar x N F j := by
  have hlen : x.shape.length = 2 := by rw [hx]; rfl
  rw [bn_call_ok m x hlen]
  dsimp only
  rw [bn_forward_fst m x htr]
  exact bn_calcStats_stats m x N F j hx hrm hrv hj

/-- C3 (witness): the EMA update at a concrete training-mode module. -/
theorem bn_train_ema_witness :
    (bnTrainA.call (arr11 5)).1.running_mean.data 0 =
        bnTrainA.momentum * bnTrainA.running_mean.data 0 +
          (1 - bnTrainA.momentum) * colMean (arr11 5) 1 1 0 ∧
      (bnTrainA.call (arr11 5)).1.running_var.data 0 =
        bnTrainA.momentum * bnTrainA.running_var.data 0 +
          (1 - bnTrainA.momentum) * colVar (arr11 5) 1 1 0 :=
  bn_train_ema bnTrainA (arr11 5) 1 1 0 rfl rfl rfl rfl (by decide)

/-- C8: the EMA weights the old running statistic by momentum and the
fresh batch statistic by (1 - momentum); with the default momentum
0.1 the current batch statistic receives weight 0.9. -/
theorem bn_default_momentum (m : BatchNorm1d) (x : MLXArray) (N F j : ℕ)
    (htr : m.training = true) (hmom : m.momentum = 1 / 10)
    (hx : x.shape = [N, F]) (hrm : m.running_mean.shape = [F])
    (hrv : m.running_var.shape = [F]) (hj : j < F) :
    (m.call x).1.running_mean.data j =
        1 / 10 * m.running_mean.data j + 9 / 10 * colMean x N F j ∧
      (m.call x).1.running_var.data j =
        1 / 10 * m.running_var.data j + 9 / 10 * colVar x N F j := by
  have hlen : x.shape.length = 2 := by rw [hx]; rfl
  rw [bn_call_ok m x hlen]
  dsimp only
  rw [bn_forward_fst m x htr]
  have h := bn_calcStats_stats m x N F j hx hrm hrv hj
  rw [hmom] at h
  constructor
  · rw [h.1]
    norm_num
  · rw [h.2]
    norm_num

/-- C8 (witness): the update weights at a concrete module with the
default momentum 0.1. -/
theorem bn_default_momentum_witness :
    (bnTrainA.call (arr11 5)).1.running_mean.data 0 =
        1 / 10 * bnTrainA.running_mean.data 0 + 9 / 10 * colMean (arr11 5) 1 1 0 ∧
      (bnTrainA.call (arr11 5)).1.running_var.data 0 =
        1 / 10 * bnTrainA.running_var.data 0 + 9 / 10 * colVar (arr11 5) 1 1 0 :=
  bn_default_momentum bnTrainA (arr11 5) 1 1 0 rfl rfl rfl rfl rfl (by decide)

/-- C9: in training mode, on a 2-D input, the returned value is
normalized with the per-feature mean and variance of the current
batch, computed from the input itself (not with the running
statistics), for every module: the affine transform, when the learned
parameters are present, is applied on top of that batch-normalized
value. -/
theorem bn_train_output (m : BatchNorm1d) (x : MLXArray) (N F i j : ℕ)
    (htr : m.training = true) (hx : x.shape = [N, F])
    (hwsh : ∀ w, m.weight = some w → w.shape = [F])
    (hbsh : ∀ b, m.bias = some b → b.shape = [F])
    (hi : i < N) (hj : j < F) :
    (m.call x).2 = Except.ok ((m.forward x).2) ∧
      (m.forward x).2.data (i * F + j) =
        match m.weight, m.bias with
        | some w, some b =>
            w.data j * ((x.data (i * F + j) - colMean x N F j) *
              rsqrt (colVar x N F j + m.eps)) + b.data j
        | _, _ =>
            (x.data (i * F + j) - colMean x N F j) * rsqrt (colVar x N F j + m.eps) := by
  have hlen : x.shape.length = 2 := by rw [hx]; rfl
  refine ⟨by rw [bn_call_ok m x hlen], ?_⟩
  exact bn_forward_train_data m x N F i j htr hx hwsh hbsh hi hj

/-- C9 (witness): the training-mode output formula at a concrete
affine module (the constructor default) and a 1 x 1 input. -/
theorem bn_train_output_witness :
    (bnTrainB.call (arr11 5)).2 = Except.ok ((bnTrainB.forward (arr11 5)).2) ∧
      (bnTrainB.forward (arr11 5)).2.data (0 * 1 + 0) =
        (arr1 2).data 0 * (((arr11 5).data (0 * 1 + 0) - colMean (arr11 5) 1 1 0) *
          rsqrt (colVar (arr11 5) 1 1 0 + bnTrainB.eps)) + (arr1 3).data 0 :=
  bn_train_output bnTrainB (arr11 5) 1 1 0 0 rfl rfl
    (fun w hw => by injection hw with h; subst h; rfl)
    (fun b hb => by injection hb with h; subst h; rfl)
    (by decide) (by decide)

/-- C4: BatchNorm1d signals its error exactly when the input rank is
not two.  The only error defined in this file is the rank check; mx
primitives are modelled as total, so no other error condition exists
for rank-two inputs. -/
theorem bn_error_iff (m : BatchNorm1d) (x : MLXArray) :
    (m.call x).2 = Except.error "BatchNorm1d only supports 2D inputs" ↔
      x.shape.length ≠ 2 := by
  by_cases h : x.shape.length = 2
  · simp [BatchNorm1d.call, h]
  · simp [BatchNorm1d.call, h]

/-- C10: on an input whose rank is not two, the call returns the error
and the module state entirely unchanged — the raise precedes any state
access or mutation. -/
theorem bn_rank_error (m : BatchNorm1d) (x : MLXArray) (h : x.shape.length ≠ 2) :
    m.call x = (m, Except.error "BatchNorm1d only supports 2D inputs") := by
  simp [BatchNorm1d.call, h]

/-- C10 (witness): a 3-D input leaves a concrete module unchanged. -/
theorem bn_rank_error_witness :
    bnEval.call (arr111 0) = (bnEval, Except.error "BatchNorm1d only supports 2D inputs") :=
  bn_rank_error bnEval (arr111 0) (by decide)

lemma bn_train_shapes_aux (m : BatchNorm1d) (x : MLXArray) (N F : ℕ)
    (htr : m.training = true) (hx : x.shape = [N, F])
    (hrm : m.running_mean.shape = [F]) (hrv : m.running_var.shape = [F]) :
    (m.call x).1.weight = m.weight ∧ (m.call x).1.bias = m.bias ∧
      (m.call x).1.running_mean.shape = [1, F] ∧
      (m.call x).1.running_var.shape = [1, F] := by
  have hlen : x.shape.length = 2 := by rw [hx]; rfl
  have hm := meanAxis0k_eq x hx
  have hv := varAxis0k_eq x hx
  have h1 := bop_1d_r1 (· + ·) (smul m.momentum m.running_mean)
      (smul (1 - m.momentum) (meanAxis0k x)) F
      (by simp [smul, hrm]) (by rw [hm]; simp [smul])
  have h2 := bop_1d_r1 (· + ·) (smul m.momentum m.running_var)
      (smul (1 - m.momentum) (varAxis0k x)) F
      (by simp [smul, hrv]) (by rw [hv]; simp [smul])
  rw [bn_call_ok m x hlen]
  dsimp only
  rw [bn_forward_fst m x htr]
  refine ⟨bn_calcStats_weight m x, bn_calcStats_bias m x, ?_, ?_⟩
  · simp only [BatchNorm1d.calcStats]
    rw [h1]
  · simp only [BatchNorm1d.calcStats]
    rw [h2]

/-- C7 (amended): the learned weight and bias are untouched by a call,
and the running statistics keep num_features elements; but a
training-mode call changes their shape from (F,) to (1, F), because
the EMA update broadcasts the keepdims batch statistics — the
length-preservation claim fails for the running statistics' shape. -/
theorem bn_train_shapes (m : BatchNorm1d) (x : MLXArray) (N F : ℕ)
    (htr : m.training = true) (hx : x.shape = [N, F])
    (hrm : m.running_mean.shape = [F]) (hrv : m.running_var.shape = [F]) :
    (m.call x).1.weight = m.weight ∧ (m.call x).1.bias = m.bias ∧
      (m.call x).1.running_mean.shape = [1, F] ∧
      (m.call x).1.running_var.shape = [1, F] ∧
      (m.call x).1.running_mean.shape.prod = F := by
  have h := bn_train_shapes_aux m x N F htr hx hrm hrv
  refine ⟨h.1, h.2.1, h.2.2.1, h.2.2.2, ?_⟩
  rw [h.2.2.1]
  simp

/-- C7 (counterexample): a training-mode call on a concrete module
changes the shape of running_mean from [1] to [1, 1], so the module's
operations do not preserve the vector shape of the running
statistics. -/
theorem bn_shape_cex :
    (bnTrainA.call (arr11 0)).1.running_mean.shape ≠ bnTrainA.running_mean.shape := by
  have h := bn_train_shapes_aux bnTrainA (arr11 0) 1 1 rfl rfl rfl rfl
  rw [h.2.2.1]
  simp [bnTrainA, arr1]

/-!  GroupNorm: with group size 1 the two transposes are identities on
the flat data, so the compatibility path coincides with the default
path. -/

lemma transpose_last1 (a b c : ℕ) (f : ℕ → ℝ) :
    transpose0132 ⟨[a, b, c, 1], f⟩ = ⟨[a, b, 1, c], f⟩ := by
  apply MLXArray.ext
  · rfl
  · funext k
    simp only [transpose0132]
    refine congrArg f ?_
    simp only [Nat.mul_one, Nat.mod_one, Nat.add_zero]
    rw [← Nat.div_div_eq_div_mul]
    have h1 : k / c / b * b + k / c % b = k / c := by
      rw [mul_comm]
      exact Nat.div_add_mod (k / c) b
    rw [h1, mul_comm]
    exact Nat.div_add_mod k c

lemma transpose_third1 (a b c : ℕ) (f : ℕ → ℝ) :
    transpose0132 ⟨[a, b, 1, c], f⟩ = ⟨[a, b, c, 1], f⟩ := by
  apply MLXArray.ext
  · rfl
  · funext k
    simp only [transpose0132]
    refine congrArg f ?_
    simp only [Nat.one_mul, Nat.mod_one, Nat.mul_one, Nat.add_zero, Nat.div_one]
    rw [← Nat.div_div_eq_div_mul]
    have h1 : k / c / b * b + k / c % b = k / c := by
      rw [mul_comm]
      exact Nat.div_add_mod (k / c) b
    rw [h1, mul_comm]
    exact Nat.div_add_mod k c

lemma groupNorm_cores_eq (G : ℕ) (eps : ℝ) (x : MLXArray) (hG : 0 < G)
    (hlast : x.shape.getLastD 0 = G) :
    pytorchGroupNormCore G eps x = groupNormCore G eps x := by
  have hdiv : x.shape.getLastD 0 / G = 1 := by
    rw [hlast]
    exact Nat.div_self hG
  simp only [pytorchGroupNormCore, groupNormCore, hdiv, Nat.mul_one]
  rw [transpose_last1]
  dsimp only
  rw [transpose_third1]

/-- C6: when the group count equals the feature dimension (the input's
last axis), GroupNorm produces the same output with
pytorch_compatible set as without: the two grouping paths agree. -/
theorem groupNorm_pytorch_eq (g : GroupNorm) (x : MLXArray)
    (hng : g.num_groups = g.dims) (hG : 0 < g.num_groups)
    (hlast : x.shape.getLastD 0 = g.dims) :
    GroupNorm.call { g with pytorch_compatible := true } x =
      GroupNorm.call { g with pytorch_compatible := false } x := by
  have hcore := groupNorm_cores_eq g.num_groups g.eps x hG (by rw [hlast, hng])
  simp only [GroupNorm.call]
  rw [hcore]
  simp

/-- C6 (witness): the two modes agree at a concrete module with one
group and one feature on a 1 x 1 input. -/
theorem groupNorm_pytorch_eq_witness :
    GroupNorm.call { gn0 with pytorch_compatible := true } (arr11 5) =
      GroupNorm.call { gn0 with pytorch_compatible := false } (arr11 5) :=
  groupNorm_pytorch_eq gn0 (arr11 5) rfl (by decide) rfl

/-- C7 (witness): the amended statement at a concrete training-mode
module and 1 x 1 input. -/
theorem bn_train_shapes_witness :
    (bnTrainA.call (arr11 0)).1.weight = bnTrainA.weight ∧
      (bnTrainA.call (arr11 0)).1.bias = bnTrainA.bias ∧
      (bnTrainA.call (arr11 0)).1.running_mean.shape = [1, 1] ∧
      (bnTrainA.call (arr11 0)).1.running_var.shape = [1, 1] ∧
      (bnTrainA.call (arr11 0)).1.running_mean.shape.prod = 1 :=
  bn_train_shapes bnTrainA (arr11 0) 1 1 rfl rfl rfl rfl

end

end MLX
